import Mathlib

/-!
Verification development for the Indeed job-scraper pipeline (`scraper.py`).

The embedding models the four logical components of the pipeline:

* the company-type classifier `IndeedScraper._infer_company_type`;
* the card extractor `IndeedScraper._parse_job_cards`, where each of the
  three fields (title, company, location) is resolved by an ordered chain
  of BeautifulSoup lookups combined with Python `or`;
* the deduplicating merger `IndeedScraper.save_to_csv`, built on
  `pd.concat` followed by `drop_duplicates(subset=[title, company],
  keep=first)`;
* the paginated fetch loop `IndeedScraper.search_jobs`, modelled as a
  trace of request and sleep events driven by an outcome oracle giving,
  for every (query index, page index), either a fetch failure or the list
  of job cards found on that page.
-/

namespace JobScraper

/-- A persisted job record, one row of `tracker.csv`.  Fields follow the
dict built in `_parse_job_cards`: Job Title, Company Name, Location,
Platform, Company Type, Status, Date Added. -/
structure JobRecord where
  title : String
  company : String
  location : String
  platform : String
  companyType : String
  status : String
  dateAdded : String
  deriving DecidableEq

/-- The fixed keyword list `mnc_keywords` of `_infer_company_type`. -/
def mnc_keywords : List String :=
  ["microsoft", "google", "amazon", "accenture", "tcs", "infosys",
   "wipro", "cognizant", "ibm", "oracle", "sap", "deloitte",
   "pwc", "ey", "kpmg", "capgemini", "tech mahindra", "hcl"]

/-- `charsStart pat l` holds when `l` begins with the block `pat`. -/
def charsStart : List Char → List Char → Bool
  | [], _ => true
  | _ :: _, [] => false
  | a :: as, b :: bs => a == b && charsStart as bs

/-- `charsContain pat l` holds when `pat` occurs contiguously in `l`;
this is Python's substring test `pat in l`. -/
def charsContain (pat : List Char) : List Char → Bool
  | [] => charsStart pat []
  | b :: bs => charsStart pat (b :: bs) || charsContain pat bs

/-- Python `str.lower()` on the character list of a string. -/
def lowerChars (l : List Char) : List Char := l.map Char.toLower

/-- `IndeedScraper._infer_company_type`: lowercase the name, return
`MNC` on any keyword substring hit, else `Startup` when the name is
shorter than 15 characters, else `Mid-size`. -/
def infer_company_type (company_name : String) : String :=
  let company_lower := lowerChars company_name.data
  if mnc_keywords.any (fun kw => charsContain kw.data company_lower) then ("MNC")
  else if company_name.length < 15 then ("Startup")
  else ("Mid-size")

/-- Characterisation of the classifier's match condition, following the
spec's words: some fragment of the fixed keyword list occurs
(case-insensitively) as a contiguous substring of the company name. -/
def hasMncKeyword (s : String) : Prop :=
  ∃ kw, kw ∈ mnc_keywords ∧ ∃ l1 l2, lowerChars s.data = l1 ++ kw.data ++ l2

/-- One job card, abstracted to the results of the per-field lookup
strategies of `_parse_job_cards`.  Each entry is `some s` when that
strategy's `card.find(...)` returns a truthy element whose stripped text
is `s` (possibly the empty string, e.g. an element with only empty
children), and `none` when the lookup returns `None` or a falsy element,
which Python's `or` chain skips. -/
structure Card where
  titleStrats : List (Option String)
  companyStrats : List (Option String)
  locationStrats : List (Option String)
  deriving DecidableEq

/-- The Python `or` chain over lookup results: the first strategy that
found an element wins, whatever its text. -/
def firstFound : List (Option String) → Option String
  | [] => none
  | some s :: _ => some s
  | none :: rest => firstFound rest

/-- Python `str.replace("new", "")`: delete every (left-to-right,
non-overlapping) occurrence of the lowercase noise token `new`. -/
def removeNew : List Char → List Char
  | 'n' :: 'e' :: 'w' :: rest => removeNew rest
  | c :: rest => c :: removeNew rest
  | [] => []

/-- Python `str.strip()`: drop leading and trailing whitespace. -/
def trimChars (l : List Char) : List Char :=
  ((l.dropWhile Char.isWhitespace).reverse.dropWhile Char.isWhitespace).reverse

/-- The title clean-up of `_parse_job_cards`:
`title.replace("new", "").strip()`. -/
def cleanTitle (t : String) : String := String.mk (trimChars (removeNew t.data))

/-- Resolved title: text of the first strategy that found an element,
cleaned of the `new` badge; the sentinel when no strategy found one. -/
def resolveTitle (c : Card) : String :=
  match firstFound c.titleStrats with
  | some t => cleanTitle t
  | none => ("N/A")

/-- Resolved company name, sentinel when no strategy found an element. -/
def resolveCompany (c : Card) : String :=
  (firstFound c.companyStrats).getD ("N/A")

/-- Resolved location, sentinel when no strategy found an element. -/
def resolveLocation (c : Card) : String :=
  (firstFound c.locationStrats).getD ("N/A")

/-- The per-card body of `_parse_job_cards`: resolve the three fields,
then keep the card only when neither title nor company is the sentinel. -/
def parseCard (today : String) (c : Card) : Option JobRecord :=
  let title := resolveTitle c
  let company := resolveCompany c
  let location := resolveLocation c
  if title ≠ ("N/A") ∧ company ≠ ("N/A") then
    some ⟨title, company, location, ("Indeed"), infer_company_type company,
          ("Not Applied"), today⟩
  else none

/-- `IndeedScraper._parse_job_cards` over a whole page: dropped cards
produce nothing, kept cards produce one record each, in card order. -/
def parse_job_cards (today : String) (cards : List Card) : List JobRecord :=
  cards.filterMap (parseCard today)

/-- The claim's reading of per-field strategy resolution: the first
strategy whose match text is non-empty. Stated from the spec's words, to
be compared with the code's `firstFound`. -/
def firstNonEmptyMatch : List (Option String) → Option String
  | [] => none
  | some s :: rest => if s = ("") then firstNonEmptyMatch rest else some s
  | none :: rest => firstNonEmptyMatch rest

/-- The dedup key of `save_to_csv`: the (Job Title, Company Name) pair. -/
def identityKey (r : JobRecord) : String × String := (r.title, r.company)

/-- `drop_duplicates(subset=[Job Title, Company Name], keep=first)`:
scan in order, keeping a row only when its key was not seen before. -/
def dedupByKey : List JobRecord → List (String × String) → List JobRecord
  | [], _ => []
  | r :: rs, seen =>
      if identityKey r ∈ seen then dedupByKey rs seen
      else r :: dedupByKey rs (identityKey r :: seen)

/-- The merge of `save_to_csv` when a file exists:
`pd.concat([df_existing, df_new])` then `drop_duplicates` keeping the
first occurrence of each key. -/
def mergeRecords (existing incoming : List JobRecord) : List JobRecord :=
  dedupByKey (existing ++ incoming) []

/-- First record with the given identity key, if any. -/
def findByKey (k : String × String) (l : List JobRecord) : Option JobRecord :=
  l.find? (fun r => decide (identityKey r = k))

/-- The store invariant named by the spec: no two rows share an
identity key. -/
def keysUnique (rows : List JobRecord) : Prop :=
  (rows.map identityKey).Nodup

instance keysUniqueDecidable (rows : List JobRecord) : Decidable (keysUnique rows) :=
  inferInstanceAs (Decidable ((rows.map identityKey).Nodup))

/-- State of the persisted CSV file when `save_to_csv` runs: missing,
present but unparseable (`pd.read_csv` raises), or parsed rows. -/
inductive StoreFile where
  | absent
  | unparseable
  | parsed (rows : List JobRecord)
  deriving DecidableEq

/-- Observable outcome of one `save_to_csv` call: the early return on an
empty job list, the fresh-file branch writing the incoming rows verbatim,
the merge branch with its reported new-row count
`len(df_combined) - len(df_existing)`, or the uncaught `pd.read_csv`
exception propagating to the caller before any write. -/
inductive SaveOutcome where
  | noJobs
  | created (rows : List JobRecord)
  | merged (rows : List JobRecord) (newCount : Int)
  | readFailure
  deriving DecidableEq

/-- `IndeedScraper.save_to_csv` as a function of the file state and the
incoming job list. -/
def save_to_csv (store : StoreFile) (jobs : List JobRecord) : SaveOutcome :=
  if jobs = [] then SaveOutcome.noJobs
  else
    match store with
    | StoreFile.absent => SaveOutcome.created jobs
    | StoreFile.unparseable => SaveOutcome.readFailure
    | StoreFile.parsed existing =>
        let combined := mergeRecords existing jobs
        SaveOutcome.merged combined ((combined.length : Int) - (existing.length : Int))

/-- Observable exchange events of `search_jobs`: an HTTP request for
(query index, page index), and the courtesy delay `time.sleep(2)`. -/
inductive Event where
  | req (q p : Nat)
  | sleepEv
  deriving DecidableEq

/-- Outcome of one fetch: a `requests` exception (including the
`raise_for_status` raise on a non-2xx response), or a 2xx response whose
parsed HTML contains the given job cards. -/
inductive PageResult where
  | fetchError
  | success (cards : List Card)
  deriving DecidableEq

/-- Python `range(s, s + n)` as an explicit list. -/
def pageList : Nat → Nat → List Nat
  | _, 0 => []
  | s, n + 1 => s :: pageList (s + 1) n

/-- The six fixed search queries of `search_jobs`. -/
def search_queries : List String :=
  ["Data Analyst", "Business Analyst", "BI Analyst",
   "Reporting Analyst", "Analytics Executive", "Junior Data Analyst"]

/-- The body of `for page in range(max_pages)` for one query: on a fetch
exception, log and continue with the next page; on a page with no cards,
break before sleeping; otherwise parse, accumulate, sleep, and break
when the page yielded fewer than 10 parsed jobs.  Returns the event
trace and the accumulated records. -/
def queryLoopAux (today : String) (f : Nat → PageResult) (q : Nat) :
    List Nat → List Event × List JobRecord
  | [] => ([], [])
  | p :: ps =>
    match f p with
    | PageResult.fetchError =>
        let rest := queryLoopAux today f q ps
        (Event.req q p :: rest.1, rest.2)
    | PageResult.success [] => ([Event.req q p], [])
    | PageResult.success (c :: cs) =>
        let pageJobs := parse_job_cards today (c :: cs)
        if pageJobs.length < 10 then
          ([Event.req q p, Event.sleepEv], pageJobs)
        else
          let rest := queryLoopAux today f q ps
          (Event.req q p :: Event.sleepEv :: rest.1, pageJobs ++ rest.2)

/-- The outer loop of `search_jobs` over the query list, accumulating
events and records across queries. -/
def runQueries (today : String) (f2 : Nat → Nat → PageResult) (max_pages : Nat) :
    List Nat → List Event × List JobRecord
  | [] => ([], [])
  | q :: qs =>
      let seg := queryLoopAux today (f2 q) q (pageList 0 max_pages)
      let rest := runQueries today f2 max_pages qs
      (seg.1 ++ rest.1, seg.2 ++ rest.2)

/-- `IndeedScraper.search_jobs`: iterate the page loop over the six
search queries, pages `0 .. max_pages - 1` each. -/
def search_jobs (today : String) (f2 : Nat → Nat → PageResult) (max_pages : Nat) :
    List Event × List JobRecord :=
  runQueries today f2 max_pages (pageList 0 search_queries.length)

/-- A page at which the loop stops paginating this query: a successful
fetch whose parsed job count is below the fixed page size 10.  A page
with zero cards parses to zero jobs, so both break sites of the loop are
stop pages; a fetch error is not a stop. -/
def pageStops (today : String) (f : Nat → PageResult) (p : Nat) : Bool :=
  match f p with
  | PageResult.fetchError => false
  | PageResult.success cards => decide ((parse_job_cards today cards).length < 10)

/-- A request event whose fetch succeeded and found at least one card:
exactly the runs of the loop body that reach `time.sleep(2)`. -/
def okReq (f2 : Nat → Nat → PageResult) : Event → Bool
  | Event.req q p =>
      match f2 q p with
      | PageResult.success (_ :: _) => true
      | _ => false
  | Event.sleepEv => false

/-- Trace property: every request that succeeded with at least one card
is immediately followed by a sleep event. -/
def sleepFollowsOk (f2 : Nat → Nat → PageResult) : List Event → Bool
  | [] => true
  | e :: rest =>
      (!okReq f2 e || decide (rest.head? = some Event.sleepEv)) && sleepFollowsOk f2 rest

/-- A request event whose fetch succeeded (2xx), regardless of how many
cards the page contained. -/
def succReq (f2 : Nat → Nat → PageResult) : Event → Bool
  | Event.req q p =>
      match f2 q p with
      | PageResult.success _ => true
      | PageResult.fetchError => false
  | Event.sleepEv => false

/-- Is this event a request? -/
def isReqEv : Event → Bool
  | Event.req _ _ => true
  | Event.sleepEv => false

/-- The claim's delay discipline, from the spec's words: after every
successful fetch, a sleep must elapse before the next request (the
events are only requests and sleeps, so this says the event after a
successful request is never itself a request). -/
def claimDelayOK (f2 : Nat → Nat → PageResult) : List Event → Bool
  | [] => true
  | e :: rest =>
      (!(succReq f2 e && rest.any isReqEv) || !isReqEv (rest.headD Event.sleepEv))
      && claimDelayOK f2 rest

/-- A fixed scrape date used for concrete evaluations. -/
def today0 : String := "2025-01-01"

/-- Example record: the first scrape of a Data Analyst role at Acme. -/
def exRecordA : JobRecord :=
  ⟨"Data Analyst", "Acme", "Remote", "Indeed", "Startup", "Not Applied", today0⟩

/-- Example record sharing `exRecordA`'s identity key, different row. -/
def exRecordA2 : JobRecord :=
  ⟨"Data Analyst", "Acme", "Pune", "Indeed", "Startup", "Not Applied", today0⟩

/-- Example stored record whose status was edited to Applied. -/
def exApplied : JobRecord :=
  ⟨"Data Analyst", "Acme", "Remote", "Indeed", "Startup", "Applied", today0⟩

/-- Example record with a distinct identity key. -/
def exRecordB : JobRecord :=
  ⟨"BI Analyst", "Foo", "Remote", "Indeed", "Startup", "Not Applied", today0⟩

/-- Example card whose first company strategy finds an element with
empty stripped text while the second would find a name. -/
def exCard5 : Card :=
  ⟨[some ("Data Analyst")], [some (""), some ("Acme")], [none]⟩

/-- Example card with resolved title and company but no location. -/
def exCard4 : Card :=
  ⟨[some ("Data Analyst")], [some ("Acme")], [none, none]⟩

/-- Outcome oracle where every fetch succeeds with an empty page. -/
def allEmptyOutcome : Nat → Nat → PageResult := fun _ _ => PageResult.success []

/-- The identity key of the running Data Analyst at Acme example. -/
def exKey : String × String := ("Data Analyst", "Acme")

/-- The record that parsing `exCard4` produces. -/
def exParsed4 : JobRecord :=
  ⟨"Data Analyst", "Acme", "N/A", "Indeed", "Startup", "Not Applied", today0⟩

/-- `charsStart pat l` is exactly the statement that `pat` is an initial
block of `l`. -/
theorem charsStart_iff (pat : List Char) : ∀ l : List Char,
    (charsStart pat l = true ↔ ∃ t, l = pat ++ t) := by
  induction pat with
  | nil => intro l; simp [charsStart]
  | cons a as ih =>
    intro l
    cases l with
    | nil => simp [charsStart]
    | cons b bs =>
      rw [charsStart, Bool.and_eq_true, beq_iff_eq, ih bs]
      constructor
      · rintro ⟨rfl, t, rfl⟩
        exact ⟨t, rfl⟩
      · rintro ⟨t, ht⟩
        rw [List.cons_append] at ht
        cases ht
        exact ⟨rfl, t, rfl⟩

/-- `charsContain pat l` is exactly the statement that `pat` occurs as a
contiguous block inside `l`, i.e. Python's substring test. -/
theorem charsContain_iff (pat : List Char) : ∀ l : List Char,
    (charsContain pat l = true ↔ ∃ l1 l2, l = l1 ++ pat ++ l2) := by
  intro l
  induction l with
  | nil =>
    rw [charsContain, charsStart_iff]
    constructor
    · rintro ⟨t, ht⟩
      exact ⟨[], t, ht⟩
    · rintro ⟨l1, l2, h⟩
      rcases List.append_eq_nil.mp ((List.append_assoc l1 pat l2) ▸ h.symm) with ⟨h1, h2⟩
      exact ⟨l2, by simp [h1] at h ⊢; exact h⟩
  | cons b bs ih =>
    rw [charsContain, Bool.or_eq_true, charsStart_iff, ih]
    constructor
    · rintro (⟨t, ht⟩ | ⟨l1, l2, h⟩)
      · exact ⟨[], t, by simpa using ht⟩
      · exact ⟨b :: l1, l2, by simp [h]⟩
    · rintro ⟨l1, l2, h⟩
      cases l1 with
      | nil => exact Or.inl ⟨l2, by simpa using h⟩
      | cons c l1 =>
        rw [List.cons_append, List.cons_append] at h
        cases h
        exact Or.inr ⟨l1, l2, rfl⟩

/-- The classifier's keyword scan agrees with the spec-level match
predicate `hasMncKeyword`. -/
theorem mnc_any_iff (s : String) :
    (mnc_keywords.any (fun kw => charsContain kw.data (lowerChars s.data)) = true)
      ↔ hasMncKeyword s := by
  rw [List.any_eq_true]
  constructor
  · rintro ⟨kw, hkw, hc⟩
    exact ⟨kw, hkw, (charsContain_iff kw.data (lowerChars s.data)).mp hc⟩
  · rintro ⟨kw, hkw, h⟩
    exact ⟨kw, hkw, (charsContain_iff kw.data (lowerChars s.data)).mpr h⟩

/-- The classifier always lands in one of its three branches. -/
theorem infer_company_type_cases (s : String) :
    infer_company_type s = ("MNC") ∨ infer_company_type s = ("Startup")
      ∨ infer_company_type s = ("Mid-size") := by
  rw [infer_company_type]
  by_cases hm : mnc_keywords.any (fun kw => charsContain kw.data (lowerChars s.data)) = true
  · rw [if_pos hm]; exact Or.inl rfl
  · rw [if_neg hm]
    by_cases h15 : s.length < 15
    · rw [if_pos h15]; exact Or.inr (Or.inl rfl)
    · rw [if_neg h15]; exact Or.inr (Or.inr rfl)

/-- C3: `_infer_company_type` returns `MNC` exactly when a keyword of
the fixed list occurs case-insensitively inside the company name — this
branch has precedence, as the `TCS India Pvt Ltd` instance shows —
otherwise `Startup` exactly when the name has fewer than 15 characters,
otherwise `Mid-size`. -/
theorem C3_classifier_contract (s : String) :
    (infer_company_type s = ("MNC") ↔ hasMncKeyword s)
    ∧ (infer_company_type s = ("Startup") ↔ (¬ hasMncKeyword s ∧ s.length < 15))
    ∧ (infer_company_type s = ("Mid-size") ↔ (¬ hasMncKeyword s ∧ 15 ≤ s.length))
    ∧ infer_company_type ("TCS India Pvt Ltd") = ("MNC") := by
  rw [infer_company_type]
  by_cases hm : mnc_keywords.any (fun kw => charsContain kw.data (lowerChars s.data)) = true
  · have hk := (mnc_any_iff s).mp hm
    rw [if_pos hm]
    refine ⟨⟨fun _ => hk, fun _ => rfl⟩, ?_, ?_, by decide⟩
    · exact ⟨fun h => absurd h (by decide), fun h => absurd hk h.1⟩
    · exact ⟨fun h => absurd h (by decide), fun h => absurd hk h.1⟩
  · have hnk : ¬ hasMncKeyword s := fun h => hm ((mnc_any_iff s).mpr h)
    rw [if_neg hm]
    by_cases h15 : s.length < 15
    · rw [if_pos h15]
      refine ⟨⟨fun h => absurd h (by decide), fun hk => absurd hk hnk⟩, ?_, ?_, by decide⟩
      · exact ⟨fun _ => ⟨hnk, h15⟩, fun _ => rfl⟩
      · exact ⟨fun h => absurd h (by decide), fun h => absurd h15 (by omega)⟩
    · rw [if_neg h15]
      refine ⟨⟨fun h => absurd h (by decide), fun hk => absurd hk hnk⟩, ?_, ?_, by decide⟩
      · exact ⟨fun h => absurd h (by decide), fun h => absurd h.2 (by omega)⟩
      · exact ⟨fun _ => ⟨hnk, by omega⟩, fun _ => rfl⟩

/-- A kept record's company type is the classifier's verdict on its
resolved company name. -/
theorem parseCard_companyType (today : String) (c : Card) (r : JobRecord)
    (hc : parseCard today c = some r) :
    r.companyType = infer_company_type (resolveCompany c) := by
  rw [parseCard] at hc
  split at hc
  · cases hc; rfl
  · exact Option.noConfusion hc

/-- C10: the classifier never returns `Unknown` — its three branches are
exhaustive — so every record built by `_parse_job_cards` carries a
company type among `Startup`, `Mid-size`, `MNC`. -/
theorem C10_no_unknown_company_type (s today : String) (cards : List Card)
    (r : JobRecord) (hr : r ∈ parse_job_cards today cards) :
    (infer_company_type s = ("MNC") ∨ infer_company_type s = ("Startup")
      ∨ infer_company_type s = ("Mid-size"))
    ∧ infer_company_type s ≠ ("Unknown")
    ∧ (r.companyType = ("MNC") ∨ r.companyType = ("Startup")
        ∨ r.companyType = ("Mid-size"))
    ∧ r.companyType ≠ ("Unknown") := by
  have hs := infer_company_type_cases s
  obtain ⟨c, _, hc⟩ := List.mem_filterMap.mp hr
  have hct := parseCard_companyType today c r hc
  have hcc := infer_company_type_cases (resolveCompany c)
  rw [← hct] at hcc
  refine ⟨hs, ?_, hcc, ?_⟩
  · rcases hs with h | h | h <;> rw [h] <;> decide
  · rcases hcc with h | h | h <;> rw [h] <;> decide

/-- Witness for C10 at a concrete card. -/
theorem C10_no_unknown_company_type_witness :
    exParsed4 ∈ parse_job_cards today0 [exCard4]
    ∧ infer_company_type ("Acme") ≠ ("Unknown")
    ∧ exParsed4.companyType ≠ ("Unknown") :=
  ⟨by decide,
   (C10_no_unknown_company_type ("Acme") today0 [exCard4] exParsed4 (by decide)).2.1,
   (C10_no_unknown_company_type ("Acme") today0 [exCard4] exParsed4 (by decide)).2.2.2⟩

/-- C4: a card whose resolved title or company is the `N/A` sentinel is
dropped by `_parse_job_cards`; a card with resolved title and company
but no location strategy match is kept, with location `N/A`. -/
theorem C4_drop_or_keep (today : String) (c : Card) :
    ((resolveTitle c = ("N/A") ∨ resolveCompany c = ("N/A")) → parseCard today c = none)
    ∧ (resolveTitle c ≠ ("N/A") → resolveCompany c ≠ ("N/A") →
        firstFound c.locationStrats = none →
        parseCard today c = some ⟨resolveTitle c, resolveCompany c, ("N/A"), ("Indeed"),
          infer_company_type (resolveCompany c), ("Not Applied"), today⟩) := by
  constructor
  · intro h
    simp only [parseCard]
    rw [if_neg]
    rintro ⟨h1, h2⟩
    rcases h with h | h
    · exact h1 h
    · exact h2 h
  · intro h1 h2 hloc
    simp only [parseCard]
    rw [if_pos ⟨h1, h2⟩]
    simp only [resolveLocation, hloc, Option.getD_none]

/-- Witness for C4 at a concrete card missing only its location. -/
theorem C4_drop_or_keep_witness :
    (resolveTitle exCard4 ≠ ("N/A") ∧ resolveCompany exCard4 ≠ ("N/A")
      ∧ firstFound exCard4.locationStrats = none)
    ∧ parseCard today0 exCard4 = some ⟨resolveTitle exCard4, resolveCompany exCard4,
        ("N/A"), ("Indeed"), infer_company_type (resolveCompany exCard4),
        ("Not Applied"), today0⟩ :=
  ⟨⟨by decide, by decide, by decide⟩,
   (C4_drop_or_keep today0 exCard4).2 (by decide) (by decide) (by decide)⟩

/-- If every strategy failed to find an element, the `or` chain yields
nothing. -/
theorem firstFound_all_none : ∀ l : List (Option String),
    (∀ o ∈ l, o = none) → firstFound l = none
  | [], _ => rfl
  | none :: rest, h =>
      firstFound_all_none rest (fun o ho => h o (List.mem_cons_of_mem _ ho))
  | some s :: _, h => absurd (h (some s) (List.mem_cons_self _ _)) (by simp)

/-- If strategy `i` found an element and every earlier strategy found
none, the `or` chain yields strategy `i`'s text. -/
theorem firstFound_at : ∀ (l : List (Option String)) (i : Nat) (s : String),
    l.get? i = some (some s) → (∀ j, j < i → l.get? j = some none) →
    firstFound l = some s := by
  intro l
  induction l with
  | nil => intro i s h _; simp at h
  | cons o rest ih =>
    intro i s hi hj
    cases i with
    | zero =>
      have : o = some s := by simpa using hi
      rw [this]
      rfl
    | succ i =>
      have h0 : o = none := by simpa using hj 0 (Nat.succ_pos i)
      subst h0
      show firstFound rest = some s
      exact ih i s (by simpa using hi)
        (fun j hjlt => by simpa using hj (j + 1) (Nat.succ_lt_succ hjlt))

/-- C5 counterexample: the first company strategy of `exCard5` matches
an element with empty stripped text, so the resolved company is the
empty string, not the first non-empty match `Acme` that the claim
prescribes. -/
theorem C5_first_nonempty_counterexample :
    resolveCompany exCard5 = ("")
    ∧ firstNonEmptyMatch exCard5.companyStrats = some ("Acme")
    ∧ resolveCompany exCard5 ≠ (firstNonEmptyMatch exCard5.companyStrats).getD ("N/A") := by
  decide

/-- C5 as amended: for each field the resolved value is the text of the
first strategy that found an element at all — even when that text is
empty — with the title additionally cleaned; the sentinel is used
exactly by the fallback, when no strategy found an element. -/
theorem C5_first_found_resolution (c : Card) :
    ((∀ o ∈ c.titleStrats, o = none) → resolveTitle c = ("N/A"))
    ∧ (∀ i s, c.titleStrats.get? i = some (some s) →
        (∀ j, j < i → c.titleStrats.get? j = some none) → resolveTitle c = cleanTitle s)
    ∧ ((∀ o ∈ c.companyStrats, o = none) → resolveCompany c = ("N/A"))
    ∧ (∀ i s, c.companyStrats.get? i = some (some s) →
        (∀ j, j < i → c.companyStrats.get? j = some none) → resolveCompany c = s)
    ∧ ((∀ o ∈ c.locationStrats, o = none) → resolveLocation c = ("N/A"))
    ∧ (∀ i s, c.locationStrats.get? i = some (some s) →
        (∀ j, j < i → c.locationStrats.get? j = some none) → resolveLocation c = s) := by
  refine ⟨?_, ?_, ?_, ?_, ?_, ?_⟩
  · intro h; simp only [resolveTitle, firstFound_all_none _ h]
  · intro i s hi hj; simp only [resolveTitle, firstFound_at _ i s hi hj]
  · intro h; simp only [resolveCompany, firstFound_all_none _ h, Option.getD_none]
  · intro i s hi hj; simp only [resolveCompany, firstFound_at _ i s hi hj, Option.getD_some]
  · intro h; simp only [resolveLocation, firstFound_all_none _ h, Option.getD_none]
  · intro i s hi hj; simp only [resolveLocation, firstFound_at _ i s hi hj, Option.getD_some]

/-- Witness for the amended C5: the sentinel fallback on `exCard4`'s
locations, and the first-found (empty) company text on `exCard5`. -/
theorem C5_first_found_resolution_witness :
    resolveLocation exCard4 = ("N/A") ∧ resolveCompany exCard5 = ("") :=
  ⟨(C5_first_found_resolution exCard4).2.2.2.2.1 (by decide),
   (C5_first_found_resolution exCard5).2.2.2.1 0 ("") (by decide)
     (fun j hj => absurd hj (Nat.not_lt_zero j))⟩

/-- C1 is violated by the fresh-file branch of `save_to_csv`: with no
existing file, the incoming rows are written verbatim, so two incoming
records sharing an identity key are both persisted and the store's
key-uniqueness invariant fails on the first-ever save — contradicting
the function's own stated purpose of avoiding duplicates. -/
theorem C1_first_save_duplicate_keys :
    save_to_csv StoreFile.absent [exRecordA, exRecordA2]
      = SaveOutcome.created [exRecordA, exRecordA2]
    ∧ identityKey exRecordA = identityKey exRecordA2
    ∧ exRecordA ≠ exRecordA2
    ∧ ¬ keysUnique [exRecordA, exRecordA2] := by
  decide

/-- Unfolding `findByKey` over a cons cell. -/
theorem findByKey_cons (k : String × String) (r : JobRecord) (l : List JobRecord) :
    findByKey k (r :: l) = if identityKey r = k then some r else findByKey k l := by
  by_cases h : identityKey r = k
  · rw [if_pos h, findByKey, List.find?_cons_of_pos _ (by simp [h])]
  · rw [if_neg h, findByKey, List.find?_cons_of_neg _ (by simp [h])]
    rfl

/-- Key-respecting dedup never changes which record is found first for a
key that is not already marked seen. -/
theorem findByKey_dedup (k : String × String) :
    ∀ (l : List JobRecord) (seen : List (String × String)), k ∉ seen →
      findByKey k (dedupByKey l seen) = findByKey k l := by
  intro l
  induction l with
  | nil => intro seen _; rfl
  | cons r rs ih =>
    intro seen hk
    rw [dedupByKey]
    by_cases hr : identityKey r ∈ seen
    · have hne : ¬ identityKey r = k := fun he => hk (by rw [← he]; exact hr)
      rw [if_pos hr, findByKey_cons, if_neg hne, ih seen hk]
    · rw [if_neg hr, findByKey_cons, findByKey_cons]
      by_cases he : identityKey r = k
      · rw [if_pos he, if_pos he]
      · rw [if_neg he, if_neg he]
        apply ih
        intro hmem
        rcases List.mem_cons.mp hmem with h | h
        · exact he h.symm
        · exact hk h

/-- A hit in the left part of an append is the hit of the whole. -/
theorem findByKey_append_some (k : String × String) :
    ∀ (l1 l2 : List JobRecord) (r : JobRecord), findByKey k l1 = some r →
      findByKey k (l1 ++ l2) = some r := by
  intro l1
  induction l1 with
  | nil => intro l2 r h; exact Option.noConfusion h
  | cons a l1 ih =>
    intro l2 r h
    rw [findByKey_cons] at h
    rw [List.cons_append, findByKey_cons]
    by_cases ha : identityKey a = k
    · rw [if_pos ha]; rw [if_pos ha] at h; exact h
    · rw [if_neg ha]; rw [if_neg ha] at h; exact ih l2 r h

/-- Output of the dedup scan has pairwise distinct keys, none of them
already marked seen. -/
theorem dedupByKey_nodup : ∀ (l : List JobRecord) (seen : List (String × String)),
    ((dedupByKey l seen).map identityKey).Nodup
      ∧ ∀ x ∈ dedupByKey l seen, identityKey x ∉ seen := by
  intro l
  induction l with
  | nil => intro seen; exact ⟨List.nodup_nil, by simp [dedupByKey]⟩
  | cons r rs ih =>
    intro seen
    rw [dedupByKey]
    by_cases hr : identityKey r ∈ seen
    · rw [if_pos hr]; exact ih seen
    · rw [if_neg hr]
      obtain ⟨h1, h2⟩ := ih (identityKey r :: seen)
      constructor
      · rw [List.map_cons, List.nodup_cons]
        refine ⟨?_, h1⟩
        intro hmem
        rcases List.mem_map.mp hmem with ⟨x, hx, hxk⟩
        exact (h2 x hx) (by rw [hxk]; exact List.mem_cons_self _ _)
      · intro x hx
        rcases List.mem_cons.mp hx with rfl | hx
        · exact hr
        · exact fun hmem => (h2 x hx) (List.mem_cons_of_mem _ hmem)

/-- C2: merging never replaces a stored record — for any key present in
the existing rows, the merged output still yields the stored record
(with whatever status it carries), and the merged output has pairwise
distinct keys, so the incoming record with that key is not retained. -/
theorem C2_existing_record_wins (existing incoming : List JobRecord)
    (k : String × String) (r : JobRecord) (h : findByKey k existing = some r) :
    findByKey k (mergeRecords existing incoming) = some r
    ∧ keysUnique (mergeRecords existing incoming) := by
  constructor
  · rw [mergeRecords, findByKey_dedup k _ [] (by simp)]
    exact findByKey_append_some k existing incoming r h
  · exact (dedupByKey_nodup (existing ++ incoming) []).1

/-- Witness for C2: the spec's own example — the stored `Applied` record
survives a merge against a freshly scraped `Not Applied` duplicate. -/
theorem C2_existing_record_wins_witness :
    findByKey exKey [exApplied] = some exApplied
    ∧ findByKey exKey (mergeRecords [exApplied] [exRecordA2]) = some exApplied :=
  ⟨by decide, (C2_existing_record_wins [exApplied] [exRecordA2] exKey exApplied (by decide)).1⟩

/-- A scan whose every key is already seen keeps nothing. -/
theorem dedupByKey_all_seen : ∀ (l : List JobRecord) (seen : List (String × String)),
    (∀ r ∈ l, identityKey r ∈ seen) → dedupByKey l seen = [] := by
  intro l
  induction l with
  | nil => intro seen _; rfl
  | cons r rs ih =>
    intro seen h
    rw [dedupByKey, if_pos (h r (List.mem_cons_self _ _))]
    exact ih seen (fun x hx => h x (List.mem_cons_of_mem _ hx))

/-- Dedup of `l1 ++ l2` returns `l1` unchanged when `l1` has pairwise
distinct unseen keys and every key of `l2` is seen or occurs in `l1`. -/
theorem dedupByKey_covered : ∀ (l1 l2 : List JobRecord) (seen : List (String × String)),
    (l1.map identityKey).Nodup →
    (∀ r ∈ l1, identityKey r ∉ seen) →
    (∀ r ∈ l2, identityKey r ∈ seen ∨ identityKey r ∈ l1.map identityKey) →
    dedupByKey (l1 ++ l2) seen = l1 := by
  intro l1
  induction l1 with
  | nil =>
    intro l2 seen _ _ h3
    rw [List.nil_append]
    exact dedupByKey_all_seen l2 seen (fun r hr => (h3 r hr).resolve_right (by simp))
  | cons a l1 ih =>
    intro l2 seen h1 h2 h3
    rw [List.map_cons, List.nodup_cons] at h1
    rw [List.cons_append, dedupByKey, if_neg (h2 a (List.mem_cons_self _ _))]
    congr 1
    apply ih l2 (identityKey a :: seen) h1.2
    · intro r hr hmem
      rcases List.mem_cons.mp hmem with heq | hmem2
      · exact h1.1 (by rw [← heq]; exact List.mem_map_of_mem identityKey hr)
      · exact h2 r (List.mem_cons_of_mem _ hr) hmem2
    · intro r hr
      rcases h3 r hr with hs | hm
      · exact Or.inl (List.mem_cons_of_mem _ hs)
      · rw [List.map_cons] at hm
        rcases List.mem_cons.mp hm with heq | hm2
        · exact Or.inl (by rw [heq]; exact List.mem_cons_self _ _)
        · exact Or.inr hm2

/-- C8 counterexample: an existing store with a duplicated identity key
(reachable through the first-save branch) merged with an incoming list
of identical content does not reproduce the existing content — the
duplicate collapses — and the reported count is -1, not 0. -/
theorem C8_duplicate_key_counterexample :
    List.Perm [exRecordA, exRecordA] [exRecordA, exRecordA]
    ∧ save_to_csv (StoreFile.parsed [exRecordA, exRecordA]) [exRecordA, exRecordA]
        = SaveOutcome.merged [exRecordA] (-1)
    ∧ ¬ List.Perm [exRecordA] [exRecordA, exRecordA]
    ∧ (-1 : Int) ≠ 0 := by
  decide

/-- C8 as amended: the reported count always equals
`len(merged) - len(existing)`; and whenever the existing rows satisfy
the key-uniqueness invariant, merging with an incoming list of equal
content (and the merge path taken, i.e. a non-empty incoming list)
returns exactly the existing rows and reports zero. -/
theorem C8_merge_idempotent (existing incoming : List JobRecord) :
    (∀ rows count,
        save_to_csv (StoreFile.parsed existing) incoming = SaveOutcome.merged rows count →
        count = (rows.length : Int) - (existing.length : Int))
    ∧ (incoming ≠ [] → keysUnique existing → incoming.Perm existing →
        save_to_csv (StoreFile.parsed existing) incoming = SaveOutcome.merged existing 0) := by
  constructor
  · intro rows count h
    by_cases hne : incoming = []
    · rw [save_to_csv, if_pos hne] at h
      exact absurd h (by simp)
    · simp only [save_to_csv, if_neg hne, SaveOutcome.merged.injEq] at h
      rw [← h.1, ← h.2]
  · intro hne hu hperm
    have hm : mergeRecords existing incoming = existing := by
      rw [mergeRecords]
      apply dedupByKey_covered existing incoming [] hu (by simp)
      intro r hr
      exact Or.inr (List.mem_map_of_mem identityKey (hperm.mem_iff.mp hr))
    simp only [save_to_csv, if_neg hne, hm, sub_self]

/-- Witness for the amended C8 on a singleton store. -/
theorem C8_merge_idempotent_witness :
    ([exRecordB] ≠ ([] : List JobRecord) ∧ keysUnique [exRecordB]
      ∧ List.Perm [exRecordB] [exRecordB])
    ∧ save_to_csv (StoreFile.parsed [exRecordB]) [exRecordB]
        = SaveOutcome.merged [exRecordB] 0 :=
  ⟨⟨by decide, by decide, by decide⟩,
   (C8_merge_idempotent [exRecordB] [exRecordB]).2 (by decide) (by decide) (by decide)⟩

/-- C9: at merge time, a missing file makes the run proceed and create
the file from the incoming rows, while an unparseable file surfaces the
read failure to the caller and no merged output is produced. -/
theorem C9_store_read_behaviour (jobs : List JobRecord) (hne : jobs ≠ []) :
    save_to_csv StoreFile.absent jobs = SaveOutcome.created jobs
    ∧ save_to_csv StoreFile.unparseable jobs = SaveOutcome.readFailure
    ∧ ∀ rows count, save_to_csv StoreFile.unparseable jobs ≠ SaveOutcome.merged rows count := by
  refine ⟨?_, ?_, ?_⟩
  · rw [save_to_csv, if_neg hne]
  · rw [save_to_csv, if_neg hne]
  · intro rows count
    rw [save_to_csv, if_neg hne]
    simp

/-- Witness for C9 on a singleton job list. -/
theorem C9_store_read_behaviour_witness :
    ([exRecordB] ≠ ([] : List JobRecord))
    ∧ save_to_csv StoreFile.absent [exRecordB] = SaveOutcome.created [exRecordB]
    ∧ save_to_csv StoreFile.unparseable [exRecordB] = SaveOutcome.readFailure :=
  ⟨by decide, (C9_store_read_behaviour [exRecordB] (by decide)).1,
   (C9_store_read_behaviour [exRecordB] (by decide)).2.1⟩

/-- Appending a delay-respecting continuation to one query's event
trace keeps the trace delay-respecting: inside the loop, a request that
succeeded with cards is always followed by its `time.sleep(2)` event. -/
theorem sleepFollowsOk_queryLoopAux (today : String) (f2 : Nat → Nat → PageResult)
    (q : Nat) : ∀ (ps : List Nat) (tail : List Event), sleepFollowsOk f2 tail = true →
    sleepFollowsOk f2 ((queryLoopAux today (f2 q) q ps).1 ++ tail) = true := by
  intro ps
  induction ps with
  | nil => intro tail ht; simpa [queryLoopAux] using ht
  | cons p ps ih =>
    intro tail ht
    cases hf : f2 q p with
    | fetchError =>
      have he : (queryLoopAux today (f2 q) q (p :: ps)).1
          = Event.req q p :: (queryLoopAux today (f2 q) q ps).1 := by
        simp only [queryLoopAux, hf]
      have hok : okReq f2 (Event.req q p) = false := by simp [okReq, hf]
      rw [he, List.cons_append, sleepFollowsOk, hok]
      simpa using ih tail ht
    | success cards =>
      cases cards with
      | nil =>
        have he : (queryLoopAux today (f2 q) q (p :: ps)).1 = [Event.req q p] := by
          simp only [queryLoopAux, hf]
        have hok : okReq f2 (Event.req q p) = false := by simp [okReq, hf]
        rw [he, List.singleton_append, sleepFollowsOk, hok]
        simpa using ht
      | cons c cs =>
        have hok : okReq f2 (Event.req q p) = true := by simp [okReq, hf]
        by_cases hlt : (parse_job_cards today (c :: cs)).length < 10
        · have he : (queryLoopAux today (f2 q) q (p :: ps)).1
              = [Event.req q p, Event.sleepEv] := by
            simp only [queryLoopAux, hf, if_pos hlt]
          rw [he]
          show sleepFollowsOk f2 (Event.req q p :: Event.sleepEv :: tail) = true
          rw [sleepFollowsOk, hok, sleepFollowsOk]
          have hok2 : okReq f2 Event.sleepEv = false := rfl
          rw [hok2]
          simpa using ht
        · have he : (queryLoopAux today (f2 q) q (p :: ps)).1
              = Event.req q p :: Event.sleepEv :: (queryLoopAux today (f2 q) q ps).1 := by
            simp only [queryLoopAux, hf, if_neg hlt]
          rw [he, List.cons_append, List.cons_append, sleepFollowsOk, hok, sleepFollowsOk]
          have hok2 : okReq f2 Event.sleepEv = false := rfl
          rw [hok2]
          simpa using ih tail ht

/-- The whole run respects the delay discipline query after query. -/
theorem sleepFollowsOk_runQueries (today : String) (f2 : Nat → Nat → PageResult)
    (max_pages : Nat) : ∀ qs : List Nat,
    sleepFollowsOk f2 ((runQueries today f2 max_pages qs).1) = true := by
  intro qs
  induction qs with
  | nil => rfl
  | cons q qs ih =>
    have he : (runQueries today f2 max_pages (q :: qs)).1
        = (queryLoopAux today (f2 q) q (pageList 0 max_pages)).1
          ++ (runQueries today f2 max_pages qs).1 := by
      simp only [runQueries]
    rw [he]
    exact sleepFollowsOk_queryLoopAux today f2 q _ _ ih

/-- C7 counterexample: when every page fetch succeeds but yields no
cards, the loop breaks before its `time.sleep(2)`, so the run issues the
next query's request immediately after a successful fetch, with no sleep
event in between — the claimed delay discipline fails on this run. -/
theorem C7_delay_counterexample :
    (search_jobs today0 allEmptyOutcome 5).1
      = [Event.req 0 0, Event.req 1 0, Event.req 2 0,
         Event.req 3 0, Event.req 4 0, Event.req 5 0]
    ∧ succReq allEmptyOutcome (Event.req 0 0) = true
    ∧ claimDelayOK allEmptyOutcome ((search_jobs today0 allEmptyOutcome 5).1) = false := by
  decide

/-- C7 as amended: after every successful fetch that found at least one
card, the sleep event is issued immediately, before any further request;
a successful fetch with zero cards ends the query without the delay. -/
theorem C7_delay_after_nonempty_success (today : String) (f2 : Nat → Nat → PageResult)
    (max_pages : Nat) :
    sleepFollowsOk f2 ((search_jobs today f2 max_pages).1) = true :=
  sleepFollowsOk_runQueries today f2 max_pages (pageList 0 search_queries.length)

/-- Which page indices of one query get requested: exactly an initial
stretch of `range(max_pages)` running through the first stop page. -/
theorem req_mem_queryLoopAux (today : String) (f : Nat → PageResult) (q p : Nat) :
    ∀ (n s : Nat),
      (Event.req q p ∈ (queryLoopAux today f q (pageList s n)).1
        ↔ (s ≤ p ∧ p < s + n ∧ ∀ j, s ≤ j → j < p → pageStops today f j = false)) := by
  intro n
  induction n with
  | zero =>
    intro s
    constructor
    · intro h
      simp [pageList, queryLoopAux] at h
    · rintro ⟨h1, h2, -⟩
      exfalso
      omega
  | succ m ih =>
    intro s
    rw [show pageList s (m + 1) = s :: pageList (s + 1) m from rfl]
    cases hf : f s with
    | fetchError =>
      have hstop : pageStops today f s = false := by simp [pageStops, hf]
      have he : (queryLoopAux today f q (s :: pageList (s + 1) m)).1
          = Event.req q s :: (queryLoopAux today f q (pageList (s + 1) m)).1 := by
        simp only [queryLoopAux, hf]
      rw [he, List.mem_cons]
      constructor
      · rintro (heq | hmem)
        · obtain ⟨-, rfl⟩ : q = q ∧ p = s := by simpa [Event.req.injEq] using heq
          exact ⟨Nat.le_refl p, by omega,
            fun j hj1 hj2 => (Nat.lt_irrefl p (Nat.lt_of_le_of_lt hj1 hj2)).elim⟩
        · obtain ⟨h1, h2, h3⟩ := (ih (s + 1)).mp hmem
          refine ⟨by omega, by omega, ?_⟩
          intro j hj1 hj2
          by_cases hjs : j = s
          · rw [hjs]; exact hstop
          · exact h3 j (by omega) hj2
      · rintro ⟨h1, h2, h3⟩
        by_cases hp : p = s
        · exact Or.inl (by rw [hp])
        · exact Or.inr ((ih (s + 1)).mpr
            ⟨by omega, by omega, fun j hj1 hj2 => h3 j (by omega) hj2⟩)
    | success cards =>
      cases cards with
      | nil =>
        have hstop : pageStops today f s = true := by
          simp [pageStops, hf, parse_job_cards]
        have he : (queryLoopAux today f q (s :: pageList (s + 1) m)).1
            = [Event.req q s] := by
          simp only [queryLoopAux, hf]
        rw [he, List.mem_singleton]
        constructor
        · intro heq
          obtain ⟨-, rfl⟩ : q = q ∧ p = s := by simpa [Event.req.injEq] using heq
          exact ⟨Nat.le_refl p, by omega,
            fun j hj1 hj2 => (Nat.lt_irrefl p (Nat.lt_of_le_of_lt hj1 hj2)).elim⟩
        · rintro ⟨h1, h2, h3⟩
          by_cases hp : p = s
          · rw [hp]
          · exfalso
            have hc := h3 s (Nat.le_refl s) (by omega)
            rw [hstop] at hc
            exact Bool.noConfusion hc
      | cons c cs =>
        by_cases hlt : (parse_job_cards today (c :: cs)).length < 10
        · have hstop : pageStops today f s = true := by
            simp only [pageStops, hf]
            exact decide_eq_true hlt
          have he : (queryLoopAux today f q (s :: pageList (s + 1) m)).1
              = [Event.req q s, Event.sleepEv] := by
            simp only [queryLoopAux, hf, if_pos hlt]
          rw [he, List.mem_cons, List.mem_singleton]
          constructor
          · rintro (heq | heq)
            · obtain ⟨-, rfl⟩ : q = q ∧ p = s := by simpa [Event.req.injEq] using heq
              exact ⟨Nat.le_refl p, by omega,
                fun j hj1 hj2 => (Nat.lt_irrefl p (Nat.lt_of_le_of_lt hj1 hj2)).elim⟩
            · exact Event.noConfusion heq
          · rintro ⟨h1, h2, h3⟩
            by_cases hp : p = s
            · exact Or.inl (by rw [hp])
            · exfalso
              have hc := h3 s (Nat.le_refl s) (by omega)
              rw [hstop] at hc
              exact Bool.noConfusion hc
        · have hstop : pageStops today f s = false := by
            simp only [pageStops, hf]
            exact decide_eq_false hlt
          have he : (queryLoopAux today f q (s :: pageList (s + 1) m)).1
              = Event.req q s :: Event.sleepEv
                :: (queryLoopAux today f q (pageList (s + 1) m)).1 := by
            simp only [queryLoopAux, hf, if_neg hlt]
          rw [he, List.mem_cons, List.mem_cons]
          constructor
          · rintro (heq | heq | hmem)
            · obtain ⟨-, rfl⟩ : q = q ∧ p = s := by simpa [Event.req.injEq] using heq
              exact ⟨Nat.le_refl p, by omega,
                fun j hj1 hj2 => (Nat.lt_irrefl p (Nat.lt_of_le_of_lt hj1 hj2)).elim⟩
            · exact Event.noConfusion heq
            · obtain ⟨h1, h2, h3⟩ := (ih (s + 1)).mp hmem
              refine ⟨by omega, by omega, ?_⟩
              intro j hj1 hj2
              by_cases hjs : j = s
              · rw [hjs]; exact hstop
              · exact h3 j (by omega) hj2
          · rintro ⟨h1, h2, h3⟩
            by_cases hp : p = s
            · exact Or.inl (by rw [hp])
            · exact Or.inr (Or.inr ((ih (s + 1)).mpr
                ⟨by omega, by omega, fun j hj1 hj2 => h3 j (by omega) hj2⟩))

/-- Every event of one query's trace is a sleep or a request tagged with
that query's index. -/
theorem queryLoopAux_events_tag (today : String) (f : Nat → PageResult) (q : Nat) :
    ∀ (ps : List Nat) (e : Event), e ∈ (queryLoopAux today f q ps).1 →
      e = Event.sleepEv ∨ ∃ p, e = Event.req q p := by
  intro ps
  induction ps with
  | nil => intro e he; simp [queryLoopAux] at he
  | cons p ps ih =>
    intro e he
    cases hf : f p with
    | fetchError =>
      have h2 : e ∈ Event.req q p :: (queryLoopAux today f q ps).1 := by
        have heq : (queryLoopAux today f q (p :: ps)).1
            = Event.req q p :: (queryLoopAux today f q ps).1 := by
          simp only [queryLoopAux, hf]
        rw [← heq]; exact he
      rcases List.mem_cons.mp h2 with rfl | h3
      · exact Or.inr ⟨p, rfl⟩
      · exact ih e h3
    | success cards =>
      cases cards with
      | nil =>
        have h2 : e ∈ [Event.req q p] := by
          have heq : (queryLoopAux today f q (p :: ps)).1 = [Event.req q p] := by
            simp only [queryLoopAux, hf]
          rw [← heq]; exact he
        exact Or.inr ⟨p, List.mem_singleton.mp h2⟩
      | cons c cs =>
        by_cases hlt : (parse_job_cards today (c :: cs)).length < 10
        · have h2 : e ∈ [Event.req q p, Event.sleepEv] := by
            have heq : (queryLoopAux today f q (p :: ps)).1
                = [Event.req q p, Event.sleepEv] := by
              simp only [queryLoopAux, hf, if_pos hlt]
            rw [← heq]; exact he
          rcases List.mem_cons.mp h2 with rfl | h3
          · exact Or.inr ⟨p, rfl⟩
          · exact Or.inl (List.mem_singleton.mp h3)
        · have h2 : e ∈ Event.req q p :: Event.sleepEv
              :: (queryLoopAux today f q ps).1 := by
            have heq : (queryLoopAux today f q (p :: ps)).1
                = Event.req q p :: Event.sleepEv :: (queryLoopAux today f q ps).1 := by
              simp only [queryLoopAux, hf, if_neg hlt]
            rw [← heq]; exact he
          rcases List.mem_cons.mp h2 with rfl | h3
          · exact Or.inr ⟨p, rfl⟩
          · rcases List.mem_cons.mp h3 with rfl | h4
            · exact Or.inl rfl
            · exact ih e h4

/-- Page list membership: `range(s, s + n)` holds the naturals of that
interval. -/
theorem mem_pageList (x : Nat) : ∀ (n s : Nat), x ∈ pageList s n ↔ (s ≤ x ∧ x < s + n) := by
  intro n
  induction n with
  | zero =>
    intro s
    constructor
    · intro h
      simp [pageList] at h
    · rintro ⟨h1, h2⟩
      exfalso
      omega
  | succ m ih =>
    intro s
    rw [show pageList s (m + 1) = s :: pageList (s + 1) m from rfl, List.mem_cons, ih (s + 1)]
    omega

/-- A request for query `q` occurs in the whole run's trace exactly when
it occurs in query `q`'s own segment and `q` is one of the queries. -/
theorem req_mem_runQueries (today : String) (f2 : Nat → Nat → PageResult)
    (max_pages q p : Nat) : ∀ qs : List Nat,
    (Event.req q p ∈ (runQueries today f2 max_pages qs).1
      ↔ q ∈ qs ∧ Event.req q p ∈ (queryLoopAux today (f2 q) q (pageList 0 max_pages)).1) := by
  intro qs
  induction qs with
  | nil => simp [runQueries]
  | cons q1 qs ih =>
    have he : (runQueries today f2 max_pages (q1 :: qs)).1
        = (queryLoopAux today (f2 q1) q1 (pageList 0 max_pages)).1
          ++ (runQueries today f2 max_pages qs).1 := by
      simp only [runQueries]
    rw [he, List.mem_append, ih, List.mem_cons]
    constructor
    · rintro (hseg | ⟨hq, hmem⟩)
      · rcases queryLoopAux_events_tag today (f2 q1) q1 _ _ hseg with heq | ⟨p1, heq⟩
        · exact Event.noConfusion heq
        · obtain ⟨rfl, rfl⟩ : q = q1 ∧ p = p1 := by simpa [Event.req.injEq] using heq
          exact ⟨Or.inl rfl, hseg⟩
      · exact ⟨Or.inr hq, hmem⟩
    · rintro ⟨hq | hq, hmem⟩
      · subst hq
        exact Or.inl hmem
      · exact Or.inr ⟨hq, hmem⟩

/-- C6: a page of one query is requested exactly when its index is below
`max_pages` and no earlier page of that query was a stop page — a
successful fetch whose parsed jobs number fewer than 10, which covers
both break sites (a card-less page parses to zero jobs).  So the loop
stops at the first such page and otherwise runs to the page cap. -/
theorem C6_pagination_termination (today : String) (f2 : Nat → Nat → PageResult)
    (max_pages q p : Nat) :
    Event.req q p ∈ (search_jobs today f2 max_pages).1
    ↔ (q < search_queries.length ∧ p < max_pages ∧
        ∀ j, j < p → pageStops today (f2 q) j = false) := by
  rw [search_jobs, req_mem_runQueries today f2 max_pages q p,
    mem_pageList q search_queries.length 0,
    req_mem_queryLoopAux today (f2 q) q p max_pages 0]
  constructor
  · rintro ⟨⟨-, hq⟩, -, hp, h3⟩
    exact ⟨by omega, by omega, fun j hj => h3 j (Nat.zero_le j) hj⟩
  · rintro ⟨hq, hp, h3⟩
    exact ⟨⟨Nat.zero_le q, by omega⟩, Nat.zero_le p, by omega, fun j _ hj => h3 j hj⟩

end JobScraper
